import Mathlib

/-!
Verification of the transcript comparison and gap-repair engine
(`compare_transcripts.py`) of the speaking-practice repository.

Modelling conventions:
* a file is a list of lines, each line a `List Char` (trailing newlines
  already removed, mirroring `line.rstrip('\n')` in the source);
* Python `float` times and ratios are embedded as `ℚ`;
* Python sets of words are embedded as `Finset (List Char)`.
-/

/-- Python whitespace characters recognised by `str.strip` / `str.split`. -/
def isWSpace (c : Char) : Bool :=
  c == ' ' || c == '\t' || c == '\n' || c == '\r' || c == '\x0b' || c == '\x0c'

/-- `str.lower()` on a line of text. -/
def lower (l : List Char) : List Char := l.map Char.toLower

/-- `str.strip()`: remove leading and trailing whitespace. -/
def trim (l : List Char) : List Char :=
  (((l.dropWhile isWSpace).reverse.dropWhile isWSpace)).reverse

/-- `str.split()` with no argument: split on whitespace runs, dropping
empty chunks. -/
def pysplit (l : List Char) : List (List Char) :=
  (l.splitOnP isWSpace).filter (fun w => w ≠ [])

/-- `" ".join(ws)`. -/
def joinSpace : List (List Char) → List Char
  | [] => []
  | [w] => w
  | w :: ws => w ++ ' ' :: joinSpace ws

/-- Python's `sub in big` substring test on text. -/
def containsSub (big sub : List Char) : Bool := decide (sub <:+: big)

/-- A transcript segment (`Segment` dataclass in `compare_transcripts.py`). -/
structure Segment where
  start_seconds : ℚ
  end_seconds : ℚ
  text : List Char
  timestamp_str : List Char
deriving DecidableEq, Repr

/-- A detected gap (`MissingSegment` dataclass). -/
structure MissingSegment where
  start_seconds : ℚ
  end_seconds : ℚ
  duration : ℚ
  base_text : List Char
  context_before : Option (List Char) := none
  context_after : Option (List Char) := none
deriving DecidableEq, Repr

/-! ### Segment Parser (`parse_transcript_file`) -/

/-- Header-line test of `parse_transcript_file`: a line starting with
`Chapter`, `Video`, `Time`, `Model`, a line whose stripped form starts
with `=`, or a blank line. -/
def isHeaderLine (l : List Char) : Bool :=
  (['C','h','a','p','t','e','r'].isPrefixOf l) ||
  (['V','i','d','e','o'].isPrefixOf l) ||
  (['T','i','m','e'].isPrefixOf l) ||
  (['M','o','d','e','l'].isPrefixOf l) ||
  (trim l).head? == some '=' ||
  trim l == []

/-- Decimal value of a digit character. -/
def digitVal (c : Char) : Nat := c.toNat - 48

/-- The anchored regex `\[(\d{2}):(\d{2})\]` (`timestamp_pattern.match`):
on success returns (minutes, seconds, matched timestamp text, rest of
line after the match). -/
def parseTimestamp : List Char → Option (Nat × Nat × List Char × List Char)
  | '[' :: a :: b :: ':' :: c :: d :: ']' :: rest =>
    if a.isDigit && b.isDigit && c.isDigit && d.isDigit then
      some (10 * digitVal a + digitVal b, 10 * digitVal c + digitVal d,
            ['[', a, b, ':', c, d, ']'], rest)
    else none
  | _ => none

/-- The `end_seconds` inference of `parse_transcript_file` for the line at
index `i` of the post-header lines `tls`, with start time `start` and
stripped text `text`.  Word rate 2.5 words/second is `5/2`. -/
def inferEnd (tls : List (List Char)) (i : Nat) (start : ℚ) (text : List Char) : ℚ :=
  if i + 1 < tls.length then
    match parseTimestamp (tls.getD (i + 1) []) with
    | some (nm, ns, _, _) =>
      let nstart : ℚ := 60 * nm + ns
      if nstart - start < 15 then min nstart (start + 8)
      else min (start + ((pysplit text).length : ℚ) / (5 / 2)) (start + 8)
    | none => start + 5
  else
    min (start + ((pysplit text).length : ℚ) / (5 / 2)) (start + 10)

/-- `parse_transcript_file`: skip the leading header block, then parse
each line that starts with a `[MM:SS]` timestamp into a `Segment`. -/
def parse_transcript_file (lines : List (List Char)) : List Segment :=
  let tls := lines.dropWhile isHeaderLine
  (List.range tls.length).filterMap (fun i =>
    match parseTimestamp (tls.getD i []) with
    | none => none
    | some (mi, se, ts, rest) =>
      let start : ℚ := 60 * mi + se
      some { start_seconds := start
             end_seconds := inferEnd tls i start (trim rest)
             text := trim rest
             timestamp_str := ts })

/-! ### Coverage Matcher and Gap Aggregator (`find_missing_segments`) -/

/-- `large_text_combined`: space-joined lower-cased texts of all
accurate-pass segments. -/
def combinedText (large_segments : List Segment) : List Char :=
  joinSpace (large_segments.map (fun s => lower s.text))

/-- Words of the base text longer than 3 characters (Method 1, reverse
word-coverage). -/
def longWords (btl : List Char) : List (List Char) :=
  (pysplit btl).filter (fun w => 3 < w.length)

/-- Set of words longer than 2 characters (Method 2, word-set overlap). -/
def wordSet3 (t : List Char) : Finset (List Char) :=
  ((pysplit (lower t)).filter (fun w => 2 < w.length)).toFinset

/-- The covered decision of `find_missing_segments` for one base segment
(whose lower-cased stripped text is `btl`) against the accurate-pass
segments: Method 1 (substring / 70% word containment per segment),
Method 2 (80% word-set overlap per segment), Method 3 (any 3-word phrase
inside the combined text). -/
def base_covered (btl : List Char) (large_segments : List Segment)
    (large_text_combined : List Char) : Bool :=
  (large_segments.any (fun ls =>
    let ltl := lower ls.text
    containsSub ltl btl ||
    (let bw := longWords btl
     decide (0 < bw.length) &&
     decide ((7 : ℚ) / 10 ≤ ((bw.countP (fun w => containsSub ltl w)) : ℚ) / bw.length))))
  ||
  (let bset := ((pysplit btl).filter (fun w => 2 < w.length)).toFinset
   decide (0 < bset.card) &&
   large_segments.any (fun ls =>
     let lset := ((pysplit (lower ls.text)).filter (fun w => 2 < w.length)).toFinset
     decide ((8 : ℚ) / 10 ≤ ((bset ∩ lset).card : ℚ) / bset.card)))
  ||
  (let bl := pysplit btl
   decide (3 ≤ bl.length) &&
   (List.range (bl.length - 2)).any (fun j =>
     containsSub large_text_combined (joinSpace ((bl.drop j).take 3))))

/-- Whether the base segment at index `i` is reported uncovered: its
stripped lower-cased text has at least 10 characters and all coverage
heuristics fail. -/
def reportedAt (base_segments large_segments : List Segment) (i : Nat) : Bool :=
  match base_segments.get? i with
  | none => false
  | some bs =>
    let btl := trim (lower bs.text)
    decide (10 ≤ btl.length) &&
    ! base_covered btl large_segments (combinedText large_segments)

/-- The `MissingSegment` built for uncovered base segment `i` (context is
the first 100 characters of the neighbouring base segments). -/
def mkMissingAt (base_segments : List Segment) (i : Nat) (bs : Segment) : MissingSegment :=
  { start_seconds := bs.start_seconds
    end_seconds := bs.end_seconds
    duration := bs.end_seconds - bs.start_seconds
    base_text := bs.text
    context_before := if 0 < i then (base_segments.get? (i - 1)).map (fun s => s.text.take 100) else none
    context_after := if i < base_segments.length - 1 then (base_segments.get? (i + 1)).map (fun s => s.text.take 100) else none }

/-- First phase of `find_missing_segments`: the uncovered base segments
in input order, with context. -/
def collectMissing (base_segments large_segments : List Segment) : List MissingSegment :=
  (List.range base_segments.length).filterMap (fun i =>
    match base_segments.get? i with
    | none => none
    | some bs =>
      if reportedAt base_segments large_segments i then
        some (mkMissingAt base_segments i bs)
      else none)

/-- Merging one uncovered segment into the current gap: extend the end to
the max, recompute the duration, concatenate the base text with a space
and carry forward only the later context. -/
def mergeTwo (cur next : MissingSegment) : MissingSegment :=
  let e := max cur.end_seconds next.end_seconds
  { cur with
    end_seconds := e
    duration := e - cur.start_seconds
    base_text := cur.base_text ++ ' ' :: next.base_text
    context_after := next.context_after }

/-- The merge loop of `find_missing_segments`: `cur` is the gap being
grown; a following segment starting within 2 seconds of the current end
is merged, otherwise the current gap is closed. -/
def mergeLoop (cur : MissingSegment) : List MissingSegment → List MissingSegment
  | [] => [cur]
  | next :: rest =>
    if next.start_seconds ≤ cur.end_seconds + 2 then
      mergeLoop (mergeTwo cur next) rest
    else cur :: mergeLoop next rest

/-- Merge adjacent uncovered segments (no-op on lists of length ≤ 1,
as in the source's `len(missing_segments) > 1` guard). -/
def mergeGaps : List MissingSegment → List MissingSegment
  | [] => []
  | m :: ms => mergeLoop m ms

/-- The Gap Aggregator: merge adjacent uncovered segments, then keep the
gaps whose duration is at least `min_gap_seconds`. -/
def aggregateGaps (uncovered : List MissingSegment) (min_gap_seconds : ℚ) : List MissingSegment :=
  (mergeGaps uncovered).filter (fun g => decide (min_gap_seconds ≤ g.duration))

/-- `find_missing_segments(base_segments, large_segments, min_gap_seconds)`. -/
def find_missing_segments (base_segments large_segments : List Segment)
    (min_gap_seconds : ℚ) : List MissingSegment :=
  if base_segments = [] then []
  else aggregateGaps (collectMissing base_segments large_segments) min_gap_seconds

/-! ### Time-Range Locator (`get_file_time_range`, `find_matching_files`) -/

/-- The regex `Time:\s*(\d{2}):(\d{2})\s*-\s*(\d{2}):(\d{2})` matched at
the head of the given text (one candidate position of `re.search`). -/
def matchTimeAt : List Char → Option (Nat × Nat × Nat × Nat)
  | 'T' :: 'i' :: 'm' :: 'e' :: ':' :: rest =>
    match rest.dropWhile isWSpace with
    | a :: b :: ':' :: c :: d :: rest2 =>
      if a.isDigit && b.isDigit && c.isDigit && d.isDigit then
        match rest2.dropWhile isWSpace with
        | '-' :: rest3 =>
          match rest3.dropWhile isWSpace with
          | e :: f :: ':' :: g :: h :: _ =>
            if e.isDigit && f.isDigit && g.isDigit && h.isDigit then
              some (10 * digitVal a + digitVal b, 10 * digitVal c + digitVal d,
                    10 * digitVal e + digitVal f, 10 * digitVal g + digitVal h)
            else none
          | _ => none
        | _ => none
      else none
    | _ => none
  | _ => none

/-- `time_pattern.search(line)`: leftmost match of the time-range pattern
anywhere in the line. -/
def searchTime (l : List Char) : Option (Nat × Nat × Nat × Nat) :=
  l.tails.findSome? matchTimeAt

/-- `get_file_time_range`: scan the first 10 lines for a
`Time: MM:SS - MM:SS` header; `(0, 0)` when absent.  (A nonexistent file
also yields `(0, 0)` in the source; the model takes the file's lines.) -/
def get_file_time_range (lines : List (List Char)) : ℚ × ℚ :=
  match (lines.take 10).findSome? searchTime with
  | some (sm, ss, em, es) => (((60 * sm + ss : ℕ) : ℚ), ((60 * em + es : ℕ) : ℚ))
  | none => (0, 0)

/-- `get_chapter_time_range`: the source duplicates the same first-10-line
scan as `get_file_time_range`. -/
def get_chapter_time_range (lines : List (List Char)) : ℚ × ℚ :=
  get_file_time_range lines

/-- The time-range agreement test of `find_matching_files`: both declared
endpoints differ by strictly less than 5 seconds. -/
def rangesMatch (r1 r2 : ℚ × ℚ) : Bool :=
  decide (|r1.1 - r2.1| < 5) && decide (|r1.2 - r2.2| < 5)

/-- `find_matching_files`, over the directory contents: `base_files` are
the chapter-number matches in the base directory (already filtered of
`_formatted` variants), `large_files` the chapter-number matches in the
accurate directory, `all_large_files` every chapter file there.  Files
are represented by their content lines. -/
def find_matching_files (base_files large_files all_large_files : List (List (List Char))) :
    Option (List (List Char)) × Option (List (List Char)) :=
  match base_files with
  | [] => (none, none)
  | base_file :: _ =>
    let br := get_file_time_range base_file
    let searched :=
      match all_large_files.find? (fun f => rangesMatch br (get_file_time_range f)) with
      | some f => (some base_file, some f)
      | none =>
        match large_files with
        | lf :: _ => (some base_file, some lf)
        | [] => (some base_file, none)
    match large_files with
    | lf :: _ =>
      if rangesMatch br (get_file_time_range lf) then (some base_file, some lf)
      else searched
    | [] => searched

/-! ### Gap Repair Pipeline (`retranscribe_missing_segments`) -/

/-- `segments_overlap(s1, e1, s2, e2, tolerance)`. -/
def segments_overlap (s1 e1 s2 e2 tol : ℚ) : Bool :=
  ! (decide (e1 + tol < s2) || decide (e2 + tol < s1))

/-- `set(text.lower().split()[:10])`: the set of the first 10 lower-cased
words of a text. -/
def first10WordSet (t : List Char) : Finset (List Char) :=
  ((pysplit (lower t)).take 10).toFinset

/-- The word-similarity half of the duplicate test: the first-10-word set
of the new text is nonempty and more than 50% of it appears in the first
10 words of the existing text. -/
def wordsOverlapHalf (newText existingText : List Char) : Bool :=
  let nw := first10WordSet newText
  decide (0 < nw.card) &&
  decide ((1 : ℚ) / 2 < ((nw ∩ first10WordSet existingText).card : ℚ) / nw.card)

/-- Duplicate test for a candidate new segment `[fs, fe)` with text `t`
against the existing accurate-pass segments: some existing segment
overlaps in time (2-second tolerance) and in first-10-word content. -/
def is_duplicate (existing : List Segment) (fs fe : ℚ) (t : List Char) : Bool :=
  existing.any (fun ex =>
    segments_overlap fs fe ex.start_seconds ex.end_seconds 2 &&
    wordsOverlapHalf t ex.text)

/-- Decimal digits of `n`, left-padded to width 2 (`f"{n:02d}"` for
nonnegative values). -/
def pad2 (n : Nat) : List Char :=
  if n < 10 then '0' :: Nat.toDigits 10 n else Nat.toDigits 10 n

/-- `f"[{int(t // 60):02d}:{int(t % 60):02d}]"` for a nonnegative time. -/
def mkTimestampStr (t : ℚ) : List Char :=
  '[' :: pad2 ((⌊t / 60⌋).toNat) ++ ':' :: pad2 ((⌊t⌋ - 60 * ⌊t / 60⌋).toNat) ++ [']']

/-- A raw sub-segment returned by the transcription engine for a clip:
`seg['start']`, `seg['end']`, `seg['text']`, relative to the clip. -/
structure RawSeg where
  start : ℚ
  stop : ℚ
  text : List Char
deriving DecidableEq, Repr

/-- The `Segment` built from an accepted raw sub-segment of a gap. -/
def mkNewSegment (gap : MissingSegment) (r : RawSeg) : Segment :=
  let fs := gap.start_seconds + r.start
  { start_seconds := fs
    end_seconds := gap.start_seconds + r.stop
    text := r.text
    timestamp_str := mkTimestampStr fs }

/-- The per-sub-segment loop of `retranscribe_missing_segments`: each raw
sub-segment is placed at `gap.start_seconds + relative time` and added
unless the duplicate test rejects it (silently). -/
def acceptNewSegments (existing : List Segment) (gap : MissingSegment)
    (raw : List RawSeg) : List Segment :=
  raw.filterMap (fun r =>
    if is_duplicate existing (gap.start_seconds + r.start) (gap.start_seconds + r.stop) r.text then
      none
    else some (mkNewSegment gap r))

/-- The pre-check of `retranscribe_missing_segments`: the gap itself is
already covered by an existing segment (same overlap-plus-word test,
using the gap's `base_text`). -/
def gap_already_covered (existing : List Segment) (m : MissingSegment) : Bool :=
  existing.any (fun ex =>
    segments_overlap m.start_seconds m.end_seconds ex.start_seconds ex.end_seconds 2 &&
    wordsOverlapHalf m.base_text ex.text)

/-- Outcome of the external collaborators for one gap: whether
`clip_audio` produced a clip file, and the transcription result
(`none` models a falsy result or a result without segments). -/
structure GapOutcome where
  clipped : Bool
  transcription : Option (List RawSeg)
deriving DecidableEq, Repr

/-- Fate of the temporary clip file for one gap. -/
inductive ClipFate
  | noClip   -- no clip was created (pre-check skip or clipping failure)
  | deleted  -- clip created and `clip_path.unlink()` reached
  | leaked   -- clip created but the loop `continue`d before the unlink
deriving DecidableEq, Repr

/-- One iteration of the gap loop in `retranscribe_missing_segments`:
returns the accepted new segments for this gap and what happened to the
temporary clip file.  The `continue` taken when transcription returns no
segments occurs before the clean-up statement. -/
def processGap (existing : List Segment) (m : MissingSegment) (o : GapOutcome) :
    List Segment × ClipFate :=
  if gap_already_covered existing m then ([], ClipFate.noClip)
  else if ! o.clipped then ([], ClipFate.noClip)
  else
    match o.transcription with
    | none => ([], ClipFate.leaked)
    | some segs =>
      if segs = [] then ([], ClipFate.leaked)
      else (acceptNewSegments existing m segs, ClipFate.deleted)

/-- The boolean result of `retranscribe_missing_segments` together with
the accepted new segments: `True` immediately for an empty gap list;
otherwise `False` exactly when no new segments survived (all duplicates
or failed). -/
def retranscribe_result (existing : List Segment)
    (gaps : List (MissingSegment × GapOutcome)) : Bool × List Segment :=
  if gaps = [] then (true, [])
  else
    let new_segments := (gaps.map (fun g => (processGap existing g.1 g.2).1)).flatten
    (decide (new_segments ≠ []), new_segments)

/-- Clip-file fates of a full run over the gap list. -/
def clipFates (existing : List Segment)
    (gaps : List (MissingSegment × GapOutcome)) : List ClipFate :=
  gaps.map (fun g => (processGap existing g.1 g.2).2)

/-! ### Rewriting the transcript file after a repair -/

/-- Header extraction during the rewrite: every original line up to and
including the first line whose stripped form starts with `=`. -/
def extract_header : List (List Char) → List (List Char)
  | [] => []
  | l :: ls => if (trim l).head? == some '=' then [l] else l :: extract_header ls

/-- One written transcript line: `f"{seg.timestamp_str} {seg.text}"`. -/
def renderLine (s : Segment) : List Char := s.timestamp_str ++ ' ' :: s.text

/-- Sort key comparison used by `all_segments.sort(key=lambda s: s.start_seconds)`. -/
def leStart (a b : Segment) : Bool := decide (a.start_seconds ≤ b.start_seconds)

/-- The file content written by `retranscribe_missing_segments` after a
successful repair: preserved header lines, a blank line, then one line
per segment of the union of existing and new segments sorted by
`start_seconds`. -/
def updated_file (original_lines : List (List Char))
    (existing new_segments : List Segment) : List (List Char) :=
  extract_header original_lines ++ [[]] ++
    ((existing ++ new_segments).mergeSort leStart).map renderLine

/-! ### Chapter batch loop (`compare_chapter_transcripts` and `main`) -/

/-- A transcript file as seen by one chapter comparison: absent, present
but raising an I/O error when read, or readable with content lines. -/
inductive FileAccess
  | absent
  | raises
  | readable (lines : List (List Char))
deriving DecidableEq, Repr

/-- Result dictionary of `compare_chapter_transcripts`: either a
per-chapter error entry or the computed missing segments. -/
inductive ChapterResult
  | errorDict (msg : List Char)
  | comparison (missing : List MissingSegment)
deriving DecidableEq, Repr

/-- `compare_chapter_transcripts` for one chapter, given how its two
files respond to reading.  Reading a file that raises propagates the
exception: no handler exists in the function. -/
def compare_chapter (base large : FileAccess) (min_gap_seconds : ℚ) :
    Except Unit ChapterResult :=
  match base with
  | FileAccess.absent => Except.ok (ChapterResult.errorDict ['b','a','s','e'])
  | FileAccess.raises => Except.error ()
  | FileAccess.readable blines =>
    match large with
    | FileAccess.absent => Except.ok (ChapterResult.errorDict ['l','a','r','g','e'])
    | FileAccess.raises => Except.error ()
    | FileAccess.readable llines =>
      let bs := parse_transcript_file blines
      let ls := parse_transcript_file llines
      if bs = [] then Except.ok (ChapterResult.errorDict ['p','b'])
      else if ls = [] then Except.ok (ChapterResult.errorDict ['p','l'])
      else Except.ok (ChapterResult.comparison (find_missing_segments bs ls min_gap_seconds))

/-- The chapter loop of `main`: chapters are compared in order; an
uncaught exception from one chapter aborts the whole loop (there is no
try/except around `compare_chapter_transcripts` in the source). -/
def run_batch (min_gap_seconds : ℚ) :
    List (FileAccess × FileAccess) → Except Unit (List ChapterResult)
  | [] => Except.ok []
  | c :: cs =>
    match compare_chapter c.1 c.2 min_gap_seconds with
    | Except.error e => Except.error e
    | Except.ok r =>
      match run_batch min_gap_seconds cs with
      | Except.error e => Except.error e
      | Except.ok rs => Except.ok (r :: rs)

/-! ## Shared lemmas -/

/-- Stripping whitespace from both ends yields an infix of the original text. -/
theorem trim_infix_self (l : List Char) : trim l <:+: l := by
  have h1 : l.dropWhile isWSpace <:+ l := List.dropWhile_suffix _
  obtain ⟨u, hu⟩ := List.dropWhile_suffix (l := (l.dropWhile isWSpace).reverse) isWSpace
  have h2 : trim l <+: l.dropWhile isWSpace := by
    refine ⟨u.reverse, ?_⟩
    have h3 := congrArg List.reverse hu
    simpa [trim, List.reverse_append] using h3
  exact h2.isInfix.trans h1.isInfix

/-- `aggregateGaps` of an empty uncovered list is empty. -/
theorem aggregateGaps_nil (g : ℚ) : aggregateGaps [] g = [] := rfl

/-! ## C9 — coverage is reflexive -/

/-- C9: when the accurate-pass segments are (parsed from) content identical
to the base-pass segments, `find_missing_segments` reports no gaps, for
every minimum gap duration: each base segment of length ≥ 10 is covered by
Method 1 (its stripped lower-cased text is a substring of its own
lower-cased text), and shorter segments are skipped. -/
theorem coverage_reflexive (segs : List Segment) (min_gap_seconds : ℚ) :
    find_missing_segments segs segs min_gap_seconds = [] := by
  unfold find_missing_segments
  split
  · rfl
  · have hcol : collectMissing segs segs = [] := by
      unfold collectMissing
      apply List.filterMap_eq_nil_iff.mpr
      intro i hi
      match hg : segs.get? i with
      | none => simp
      | some bs =>
        have hmem : bs ∈ segs := List.get?_mem hg
        have hcov : base_covered (trim (lower bs.text)) segs (combinedText segs) = true := by
          unfold base_covered
          apply Bool.or_eq_true_iff.mpr
          left
          apply Bool.or_eq_true_iff.mpr
          left
          apply List.any_eq_true.mpr
          refine ⟨bs, hmem, ?_⟩
          apply Bool.or_eq_true_iff.mpr
          left
          exact decide_eq_true (trim_infix_self (lower bs.text))
        have hg' : segs[i]? = some bs := by
          rw [← List.get?_eq_getElem?]
          exact hg
        have hrep : reportedAt segs segs i = false := by
          simp [reportedAt, hg, hg', hcov]
        simp [hg, hg', hrep]
    rw [hcol, aggregateGaps_nil]

/-! ## C5 — clip-file cleanup -/

/-- Gap used in the C5 counterexample. -/
def gapC5 : MissingSegment :=
  { start_seconds := 10, end_seconds := 20, duration := 10,
    base_text := ['h','i',' ','t','h','e','r','e'] }

/-- C5 counterexample: a gap whose audio was clipped but whose
transcription fails takes the `continue` placed before the clean-up
statement, so the clip file is left behind, not deleted. -/
theorem clip_cleanup_counterexample :
    (processGap [] gapC5 { clipped := true, transcription := none }).2 = ClipFate.leaked ∧
    ClipFate.leaked ≠ ClipFate.deleted := by
  constructor
  · rfl
  · decide

/-- C5 (amended): for a gap that passes the pre-check and whose clipping
succeeded, the temporary clip file is deleted exactly when transcription
returned a nonempty segment list; on a failed or empty transcription the
loop continues without deleting it. -/
theorem clip_cleanup (existing : List Segment) (m : MissingSegment) (o : GapOutcome)
    (hclip : o.clipped = true) (hpre : gap_already_covered existing m = false) :
    (processGap existing m o).2 = ClipFate.deleted ↔
      ∃ segs, o.transcription = some segs ∧ segs ≠ [] := by
  unfold processGap
  simp only [hpre, hclip, Bool.not_true, Bool.false_eq_true, if_false]
  match o.transcription with
  | none => simp
  | some segs =>
    by_cases hs : segs = [] <;> simp [hs]

/-- Witness for C5 (amended) at a concrete gap and outcome. -/
theorem clip_cleanup_witness :
    (GapOutcome.mk true (some [{ start := 0, stop := 2, text := ['o','k'] }])).clipped = true ∧
    gap_already_covered [] gapC5 = false ∧
    (processGap [] gapC5 (GapOutcome.mk true (some [{ start := 0, stop := 2, text := ['o','k'] }]))).2
      = ClipFate.deleted := by
  refine ⟨rfl, by decide, ?_⟩
  exact (clip_cleanup [] gapC5 _ rfl (by decide)).mpr
    ⟨[{ start := 0, stop := 2, text := ['o','k'] }], rfl, by decide⟩

/-! ## C10 — missing `Time:` header means zero chapter offset -/

/-- Absolute audio-clipping offsets for a gap:
`abs_start = chapter_start + gap.start_seconds`,
`abs_end = chapter_start + gap.end_seconds`. -/
def absClipRange (chapter_start : ℚ) (m : MissingSegment) : ℚ × ℚ :=
  (chapter_start + m.start_seconds, chapter_start + m.end_seconds)

/-- C10: a transcript file whose first 10 lines contain no match of the
`Time: MM:SS - MM:SS` pattern yields the declared range `(0, 0)`, so the
chapter start used during gap repair is 0 and the absolute clipping
offsets equal the gap's chapter-relative times unchanged. -/
theorem no_time_header_zero_offset (lines : List (List Char)) (m : MissingSegment)
    (h : ∀ l ∈ lines.take 10, searchTime l = none) :
    get_file_time_range lines = (0, 0) ∧
    get_chapter_time_range lines = (0, 0) ∧
    absClipRange (get_chapter_time_range lines).1 m = (m.start_seconds, m.end_seconds) := by
  have h0 : get_file_time_range lines = (0, 0) := by
    unfold get_file_time_range
    rw [List.findSome?_eq_none_iff.mpr h]
  refine ⟨h0, ?_, ?_⟩
  · unfold get_chapter_time_range
    exact h0
  · unfold get_chapter_time_range
    rw [h0]
    unfold absClipRange
    simp

/-- Witness for C10: a file whose only line has no time header. -/
theorem no_time_header_zero_offset_witness :
    (∀ l ∈ [['h','i']].take 10, searchTime l = none) ∧
    get_file_time_range [['h','i']] = (0, 0) ∧
    absClipRange (get_chapter_time_range [['h','i']]).1 gapC5 =
      (gapC5.start_seconds, gapC5.end_seconds) := by
  refine ⟨by decide, ?_, ?_⟩
  · exact (no_time_header_zero_offset [['h','i']] gapC5 (by decide)).1
  · exact (no_time_header_zero_offset [['h','i']] gapC5 (by decide)).2.2

/-! ## C8 — I/O errors and the chapter loop -/

/-- C8 counterexample: a batch of two chapters where reading the first
chapter's base file raises an I/O error aborts the whole run — the
second chapter is never processed — instead of recording a per-chapter
error and continuing. -/
theorem io_error_counterexample :
    run_batch 5 [(FileAccess.raises, FileAccess.readable []),
                 (FileAccess.absent, FileAccess.absent)] = Except.error () ∧
    run_batch 5 [(FileAccess.absent, FileAccess.absent)] =
      Except.ok [ChapterResult.errorDict ['b','a','s','e']] := by
  constructor <;> rfl

/-- C8 (amended): missing files are recorded as per-chapter error results
and the batch continues — every chapter yields a result when no read
raises — but a raised I/O error is not caught anywhere: the first
chapter whose comparison raises aborts the entire batch. -/
theorem chapter_error_boundary (chapters : List (FileAccess × FileAccess)) (g : ℚ) :
    ((∀ c ∈ chapters, c.1 ≠ FileAccess.raises ∧ c.2 ≠ FileAccess.raises) →
      ∃ rs, run_batch g chapters = Except.ok rs ∧ rs.length = chapters.length)
    ∧ (∀ pre c post, (∀ p ∈ pre, compare_chapter p.1 p.2 g ≠ Except.error ()) →
        compare_chapter c.1 c.2 g = Except.error () →
        run_batch g (pre ++ c :: post) = Except.error ())
    ∧ (∀ large, compare_chapter FileAccess.absent large g =
        Except.ok (ChapterResult.errorDict ['b','a','s','e'])) := by
  have hok : ∀ b l : FileAccess, b ≠ FileAccess.raises → l ≠ FileAccess.raises →
      ∃ r, compare_chapter b l g = Except.ok r := by
    intro b l hb hl
    cases b with
    | absent => exact ⟨_, rfl⟩
    | raises => exact absurd rfl hb
    | readable blines =>
      cases l with
      | absent => exact ⟨_, rfl⟩
      | raises => exact absurd rfl hl
      | readable llines =>
        unfold compare_chapter
        by_cases h1 : parse_transcript_file blines = [] <;>
          by_cases h2 : parse_transcript_file llines = [] <;>
          simp [h1, h2]
  refine ⟨?_, ?_, ?_⟩
  · intro hall
    induction chapters with
    | nil => exact ⟨[], rfl, rfl⟩
    | cons c cs ih =>
      obtain ⟨r, hr⟩ := hok c.1 c.2 (hall c (List.mem_cons_self c cs)).1
        (hall c (List.mem_cons_self c cs)).2
      obtain ⟨rs, hrs, hlen⟩ := ih (fun p hp => hall p (List.mem_cons_of_mem c hp))
      refine ⟨r :: rs, ?_, by simp [hlen]⟩
      simp only [run_batch, hr, hrs]
  · intro pre c post hpre hc
    induction pre with
    | nil => simp only [List.nil_append, run_batch, hc]
    | cons p ps ih =>
      have hp := hpre p (List.mem_cons_self p ps)
      rw [List.cons_append]
      simp only [run_batch]
      match hcc : compare_chapter p.1 p.2 g with
      | Except.error e => exact absurd (by rw [hcc]) hp
      | Except.ok r =>
        rw [ih (fun q hq => hpre q (List.mem_cons_of_mem p hq))]
  · intro large
    rfl

/-- Witness for C8 (amended): a concrete batch with present and missing
files (no raising reads) runs to completion with one result per chapter;
the raising chapter at the head of a batch aborts it. -/
theorem chapter_error_boundary_witness :
    (∀ c ∈ [((FileAccess.absent : FileAccess), (FileAccess.absent : FileAccess))],
       c.1 ≠ FileAccess.raises ∧ c.2 ≠ FileAccess.raises) ∧
    (∃ rs, run_batch 5 [((FileAccess.absent : FileAccess), (FileAccess.absent : FileAccess))]
       = Except.ok rs ∧ rs.length = 1) := by
  refine ⟨by decide, ?_⟩
  exact (chapter_error_boundary [(FileAccess.absent, FileAccess.absent)] 5).1 (by decide)

/-! ## C2 — Gap Aggregator -/

/-- Merging preserves the start of the current gap. -/
theorem mergeTwo_start (cur next : MissingSegment) :
    (mergeTwo cur next).start_seconds = cur.start_seconds := rfl

/-- Every gap produced by the merge loop starts where the current gap or
one of the remaining uncovered segments starts. -/
theorem mergeLoop_start_mem (cur : MissingSegment) (ms : List MissingSegment) :
    ∀ x ∈ mergeLoop cur ms, x.start_seconds = cur.start_seconds ∨
      ∃ y ∈ ms, x.start_seconds = y.start_seconds := by
  induction ms generalizing cur with
  | nil =>
    intro x hx
    simp only [mergeLoop, List.mem_singleton] at hx
    subst hx
    exact Or.inl rfl
  | cons next rest ih =>
    intro x hx
    rw [mergeLoop] at hx
    split at hx
    · rcases ih (mergeTwo cur next) x hx with h | ⟨y, hy, hxy⟩
      · exact Or.inl (by rw [h, mergeTwo_start])
      · exact Or.inr ⟨y, List.mem_cons_of_mem _ hy, hxy⟩
    · rcases List.mem_cons.mp hx with rfl | hx'
      · exact Or.inl rfl
      · rcases ih next x hx' with h | ⟨y, hy, hxy⟩
        · exact Or.inr ⟨next, List.mem_cons_self _ _, h⟩
        · exact Or.inr ⟨y, List.mem_cons_of_mem _ hy, hxy⟩

/-- The merge loop preserves ascending `start_seconds` order. -/
theorem mergeLoop_pairwise (cur : MissingSegment) (ms : List MissingSegment)
    (h : List.Pairwise (fun a b => a.start_seconds ≤ b.start_seconds) (cur :: ms)) :
    List.Pairwise (fun a b => a.start_seconds ≤ b.start_seconds) (mergeLoop cur ms) := by
  induction ms generalizing cur with
  | nil => simp [mergeLoop]
  | cons next rest ih =>
    rw [mergeLoop]
    have hcurnext := (List.pairwise_cons.mp h).1 next (List.mem_cons_self _ _)
    have htail : List.Pairwise (fun a b => a.start_seconds ≤ b.start_seconds) (next :: rest) :=
      (List.pairwise_cons.mp h).2
    split
    · apply ih
      apply List.pairwise_cons.mpr
      refine ⟨?_, (List.pairwise_cons.mp htail).2⟩
      intro y hy
      rw [mergeTwo_start]
      exact (List.pairwise_cons.mp h).1 y (List.mem_cons_of_mem _ hy)
    · apply List.pairwise_cons.mpr
      refine ⟨?_, ih next htail⟩
      intro x hx
      rcases mergeLoop_start_mem next rest x hx with hx1 | ⟨y, hy, hxy⟩
      · rw [hx1]; exact hcurnext
      · rw [hxy]
        exact (List.pairwise_cons.mp h).1 y (List.mem_cons_of_mem _ hy)

/-- C2: on an ordered uncovered-segment list the Gap Aggregator follows
the stated merge rule (merge when the next start is within 2 seconds of
the current end, extending the end to the max, concatenating the text
with a space and carrying forward the later context; otherwise close the
gap), discards exactly the merged gaps shorter than `min_gap_seconds`,
and returns the survivors in ascending `start_seconds` order; segments
`[30,33)` and `[34,38)` merge to `[30,38)` of duration 8, which survives
the filter at `min_gap_seconds = 5`. -/
theorem gap_aggregator_correct (uncovered : List MissingSegment) (g : ℚ)
    (hord : List.Pairwise (fun a b => a.start_seconds ≤ b.start_seconds) uncovered) :
    (∀ cur next rest, mergeLoop cur (next :: rest) =
      if next.start_seconds ≤ cur.end_seconds + 2 then
        mergeLoop { cur with
          end_seconds := max cur.end_seconds next.end_seconds
          duration := max cur.end_seconds next.end_seconds - cur.start_seconds
          base_text := cur.base_text ++ ' ' :: next.base_text
          context_after := next.context_after } rest
      else cur :: mergeLoop next rest)
    ∧ (∀ m ∈ aggregateGaps uncovered g, g ≤ m.duration)
    ∧ (∀ m ∈ mergeGaps uncovered, g ≤ m.duration → m ∈ aggregateGaps uncovered g)
    ∧ List.Pairwise (fun a b => a.start_seconds ≤ b.start_seconds) (aggregateGaps uncovered g)
    ∧ aggregateGaps
        [{ start_seconds := 30, end_seconds := 33, duration := 3, base_text := ['a'] },
         { start_seconds := 34, end_seconds := 38, duration := 4, base_text := ['b'] }] 5
      = [{ start_seconds := 30, end_seconds := 38, duration := 8, base_text := ['a', ' ', 'b'] }] := by
  refine ⟨?_, ?_, ?_, ?_, by norm_num [aggregateGaps, mergeGaps, mergeLoop, mergeTwo]⟩
  · intro cur next rest
    rw [mergeLoop]
    rfl
  · intro m hm
    have := List.of_mem_filter hm
    exact of_decide_eq_true this
  · intro m hm hdur
    exact List.mem_filter.mpr ⟨hm, decide_eq_true hdur⟩
  · unfold aggregateGaps
    apply List.Pairwise.filter
    unfold mergeGaps
    match uncovered, hord with
    | [], _ => exact List.Pairwise.nil
    | m :: ms, hord => exact mergeLoop_pairwise m ms hord

/-- Witness for C2 at the concrete two-segment list of the claim. -/
theorem gap_aggregator_correct_witness :
    List.Pairwise (fun a b => a.start_seconds ≤ b.start_seconds)
      [{ start_seconds := 30, end_seconds := 33, duration := 3, base_text := ['a'] },
       ({ start_seconds := 34, end_seconds := 38, duration := 4, base_text := ['b'] } : MissingSegment)] ∧
    List.Pairwise (fun a b => a.start_seconds ≤ b.start_seconds)
      (aggregateGaps
        [{ start_seconds := 30, end_seconds := 33, duration := 3, base_text := ['a'] },
         { start_seconds := 34, end_seconds := 38, duration := 4, base_text := ['b'] }] 5) := by
  refine ⟨by decide, ?_⟩
  exact (gap_aggregator_correct
    [{ start_seconds := 30, end_seconds := 33, duration := 3, base_text := ['a'] },
     { start_seconds := 34, end_seconds := 38, duration := 4, base_text := ['b'] }] 5
    (by decide)).2.2.2.1

/-! ## C7 — rewritten file structure -/

/-- The extracted header is literally a prefix of the original lines. -/
theorem extract_header_isPrefix (lines : List (List Char)) :
    extract_header lines <+: lines := by
  induction lines with
  | nil => exact ⟨[], rfl⟩
  | cons l ls ih =>
    rw [extract_header]
    split
    · exact ⟨ls, rfl⟩
    · obtain ⟨t, ht⟩ := ih
      exact ⟨t, by rw [List.cons_append, ht]⟩

/-- C7: after a successful repair the rewritten file is the original
header lines (a verbatim prefix of the original file), a blank line, and
one rendered `[MM:SS] text` line per segment of the union of existing
and new segments, listed in non-decreasing `start_seconds` order. -/
theorem rewrite_sorted (original_lines : List (List Char))
    (existing new_segments : List Segment) :
    ∃ segs : List Segment,
      updated_file original_lines existing new_segments =
        extract_header original_lines ++ [[]] ++ segs.map renderLine ∧
      List.Perm segs (existing ++ new_segments) ∧
      List.Pairwise (fun a b => a.start_seconds ≤ b.start_seconds) segs ∧
      extract_header original_lines <+: original_lines := by
  refine ⟨(existing ++ new_segments).mergeSort leStart, rfl,
    List.mergeSort_perm _ _, ?_, extract_header_isPrefix _⟩
  have htrans : ∀ a b c : Segment, leStart a b = true → leStart b c = true → leStart a c = true := by
    intro a b c hab hbc
    exact decide_eq_true (le_trans (of_decide_eq_true hab) (of_decide_eq_true hbc))
  have htotal : ∀ a b : Segment, (leStart a b || leStart b a) = true := by
    intro a b
    rcases le_total a.start_seconds b.start_seconds with h | h <;> simp [leStart, h]
  exact (List.sorted_mergeSort htrans htotal (existing ++ new_segments)).imp
    (fun hab => of_decide_eq_true hab)

/-! ## C6 — Time-Range Locator -/

/-- A `Time: MM:SS - MM:SS` header line with the given four components. -/
def timeHeaderLine (a b c d : Nat) : List Char :=
  ['T','i','m','e',':',' '] ++ pad2 a ++ ':' :: pad2 b ++ [' ','-',' '] ++ pad2 c ++ ':' :: pad2 d

/-- Base file declaring range `(0, 100)`. -/
def c6Base : List (List Char) := [timeHeaderLine 0 0 1 40]

/-- Chapter-number match declaring range `(5, 100)` — exactly 5 seconds
off at the start. -/
def c6L1 : List (List Char) := [timeHeaderLine 0 5 1 40]

/-- Another accurate-pass file declaring range `(1, 100)`. -/
def c6L2 : List (List Char) := [timeHeaderLine 0 1 1 40]

unseal Rat.add Rat.sub Rat.mul Rat.inv in
/-- C6 counterexample: the chapter-number match's declared range differs
from the base range by exactly 5 seconds — not *more than* 5 — yet the
locator already treats it as unreliable and prefers a different file
found by the time-range search. -/
theorem time_range_locator_counterexample :
    |(get_file_time_range c6Base).1 - (get_file_time_range c6L1).1| = 5 ∧
    |(get_file_time_range c6Base).2 - (get_file_time_range c6L1).2| = 0 ∧
    (find_matching_files [c6Base] [c6L1] [c6L1, c6L2]).2 = some c6L2 ∧
    c6L2 ≠ c6L1 := by
  decide

/-- C6 (amended): the chapter-number match is kept when both declared
endpoints differ by strictly less than 5 seconds; when either endpoint
differs by 5 seconds or more the whole accurate-pass directory is
searched for a file whose declared range is within 5 seconds at both
endpoints, preferring the first such file, and falling back to the
chapter-number match when none exists (the mismatch having been
announced). -/
theorem time_range_locator (bf lf : List (List Char))
    (brest lrest all_large : List (List (List Char))) :
    (∀ r1 r2 : ℚ × ℚ, rangesMatch r1 r2 = true ↔ |r1.1 - r2.1| < 5 ∧ |r1.2 - r2.2| < 5)
    ∧ (rangesMatch (get_file_time_range bf) (get_file_time_range lf) = true →
        find_matching_files (bf :: brest) (lf :: lrest) all_large = (some bf, some lf))
    ∧ (rangesMatch (get_file_time_range bf) (get_file_time_range lf) = false →
        find_matching_files (bf :: brest) (lf :: lrest) all_large =
          match all_large.find? (fun f => rangesMatch (get_file_time_range bf) (get_file_time_range f)) with
          | some f => (some bf, some f)
          | none => (some bf, some lf)) := by
  refine ⟨?_, ?_, ?_⟩
  · intro r1 r2
    simp [rangesMatch]
  · intro h
    simp [find_matching_files, h]
  · intro h
    simp only [find_matching_files, h, Bool.false_eq_true, if_false]

unseal Rat.add Rat.sub Rat.mul Rat.inv in
/-- Witness for C6 (amended): identical declared ranges keep the
chapter-number match. -/
theorem time_range_locator_witness :
    rangesMatch (get_file_time_range c6Base) (get_file_time_range c6Base) = true ∧
    find_matching_files [c6Base] [c6Base] [] = (some c6Base, some c6Base) := by
  refine ⟨by decide, ?_⟩
  exact (time_range_locator c6Base c6Base [] [] []).2.1 (by decide)

/-! ## C4 — duplicate rejection during gap repair -/

/-- C4: a newly transcribed sub-segment, placed at
`gap.start_seconds + relative time`, is silently rejected exactly when
some existing segment both overlaps its time range within a 2-second
tolerance and shares more than 50% of its (nonempty) first-10-word set;
the accepted segments are the non-duplicates, and when no new segments
survive over a nonempty gap list the repair returns `false`. -/
theorem gap_repair_dedup (existing : List Segment) (gap : MissingSegment)
    (raws : List RawSeg) (gaps : List (MissingSegment × GapOutcome)) (hne : gaps ≠ []) :
    acceptNewSegments existing gap raws =
      (raws.filter (fun r => ! is_duplicate existing (gap.start_seconds + r.start)
        (gap.start_seconds + r.stop) r.text)).map (mkNewSegment gap)
    ∧ (∀ fs fe : ℚ, ∀ t : List Char, is_duplicate existing fs fe t = true ↔
        ∃ ex ∈ existing,
          ¬ (fe + 2 < ex.start_seconds ∨ ex.end_seconds + 2 < fs) ∧
          (first10WordSet t).Nonempty ∧
          (1 : ℚ) / 2 < ((first10WordSet t ∩ first10WordSet ex.text).card : ℚ) / (first10WordSet t).card)
    ∧ ((gaps.map (fun g => (processGap existing g.1 g.2).1)).flatten = [] →
        (retranscribe_result existing gaps).1 = false) := by
  refine ⟨?_, ?_, ?_⟩
  · unfold acceptNewSegments
    induction raws with
    | nil => rfl
    | cons r rs ih =>
      by_cases h : is_duplicate existing (gap.start_seconds + r.start)
          (gap.start_seconds + r.stop) r.text <;>
        simp [h, ih]
  · intro fs fe t
    unfold is_duplicate segments_overlap wordsOverlapHalf
    rw [List.any_eq_true]
    simp only [Bool.and_eq_true, Bool.not_eq_true', Bool.or_eq_false_iff,
      decide_eq_false_iff_not, decide_eq_true_eq, Finset.card_pos, not_or]
  · intro hflat
    unfold retranscribe_result
    rw [if_neg hne, hflat]
    rfl

/-- Witness for C4 at a nonempty gap list whose only gap produced no
accepted segments. -/
theorem gap_repair_dedup_witness :
    ([(gapC5, GapOutcome.mk true (some []))] : List (MissingSegment × GapOutcome)) ≠ [] ∧
    (retranscribe_result [] [(gapC5, GapOutcome.mk true (some []))]).1 = false := by
  refine ⟨by decide, ?_⟩
  exact (gap_repair_dedup [] gapC5 [] [(gapC5, GapOutcome.mk true (some []))]
    (by decide)).2.2 (by decide)

/-! ## C3 — end-time inference -/

/-- A transcript line `[00:00] hello world foo`. -/
def c3LineA : List Char :=
  ['[','0','0',':','0','0',']',' ','h','e','l','l','o',' ','w','o','r','l','d',' ','f','o','o']

/-- A following line with no leading timestamp. -/
def c3LineB : List Char := ['x','y','z']

unseal Rat.add Rat.sub Rat.mul Rat.inv in
/-- C3 counterexample: when the line after a segment carries no leading
`[MM:SS]` timestamp, the parser leaves the default `end_seconds =
start_seconds + 5`.  Here the only parsed segment (hence the last one)
has 3 words, so the claimed word-count estimate capped at `start + 10`
would give `min (0 + 3/(5/2)) (0 + 10) = 6/5`, but the code yields 5. -/
theorem segment_end_counterexample :
    (parse_transcript_file [c3LineA, c3LineB]).map Segment.end_seconds = [5] ∧
    (parse_transcript_file [c3LineA, c3LineB]).map Segment.start_seconds = [0] ∧
    (parse_transcript_file [c3LineA, c3LineB]).map (fun s => ((pysplit s.text).length : ℚ)) = [3] ∧
    ¬ (5 : ℚ) = min ((0 : ℚ) + 3 / (5 / 2)) (0 + 10) := by
  decide

/-- C3 (amended): `end_seconds` is inferred from the immediately
following post-header line: if that line starts with a timestamp less
than 15 seconds later, `end = min(next_start, start + 8)`; if it starts
with a timestamp 15 or more seconds later, `end` is the word-count
estimate at 2.5 words/second capped at `start + 8`; if a following line
exists without a leading timestamp, `end = start + 5`; and only for the
last line is `end` the word-count estimate capped at `start + 10`. -/
theorem segment_end_inference (lines : List (List Char)) (i : Nat)
    (mi se : Nat) (ts rest : List Char)
    (hi : i < (lines.dropWhile isHeaderLine).length)
    (hts : parseTimestamp ((lines.dropWhile isHeaderLine).getD i []) = some (mi, se, ts, rest)) :
    (∃ s ∈ parse_transcript_file lines,
        s.start_seconds = (60 * mi + se : ℚ) ∧ s.text = trim rest ∧ s.timestamp_str = ts ∧
        s.end_seconds = inferEnd (lines.dropWhile isHeaderLine) i (60 * mi + se) (trim rest))
    ∧ (i + 1 = (lines.dropWhile isHeaderLine).length →
        inferEnd (lines.dropWhile isHeaderLine) i (60 * mi + se) (trim rest) =
          min ((60 * mi + se : ℚ) + ((pysplit (trim rest)).length : ℚ) / (5 / 2))
              ((60 * mi + se : ℚ) + 10))
    ∧ (∀ nm ns nts nrest, i + 1 < (lines.dropWhile isHeaderLine).length →
        parseTimestamp ((lines.dropWhile isHeaderLine).getD (i + 1) []) = some (nm, ns, nts, nrest) →
        (((60 * nm + ns : ℚ) - (60 * mi + se) < 15 →
            inferEnd (lines.dropWhile isHeaderLine) i (60 * mi + se) (trim rest) =
              min (60 * nm + ns : ℚ) ((60 * mi + se : ℚ) + 8)) ∧
         (15 ≤ (60 * nm + ns : ℚ) - (60 * mi + se) →
            inferEnd (lines.dropWhile isHeaderLine) i (60 * mi + se) (trim rest) =
              min ((60 * mi + se : ℚ) + ((pysplit (trim rest)).length : ℚ) / (5 / 2))
                  ((60 * mi + se : ℚ) + 8))))
    ∧ (i + 1 < (lines.dropWhile isHeaderLine).length →
        parseTimestamp ((lines.dropWhile isHeaderLine).getD (i + 1) []) = none →
        inferEnd (lines.dropWhile isHeaderLine) i (60 * mi + se) (trim rest) =
          (60 * mi + se : ℚ) + 5) := by
  refine ⟨?_, ?_, ?_, ?_⟩
  · refine ⟨{ start_seconds := (60 * mi + se : ℚ)
              end_seconds := inferEnd (lines.dropWhile isHeaderLine) i (60 * mi + se) (trim rest)
              text := trim rest
              timestamp_str := ts }, ?_, rfl, rfl, rfl, rfl⟩
    unfold parse_transcript_file
    apply List.mem_filterMap.mpr
    refine ⟨i, List.mem_range.mpr hi, ?_⟩
    rw [hts]
  · intro hlast
    unfold inferEnd
    rw [if_neg (by omega)]
  · intro nm ns nts nrest hlt hnext
    constructor
    · intro h15
      unfold inferEnd
      rw [if_pos hlt]
      simp only [hnext]
      rw [if_pos h15]
    · intro h15
      unfold inferEnd
      rw [if_pos hlt]
      simp only [hnext]
      rw [if_neg (not_lt.mpr h15)]
  · intro hlt hnone
    unfold inferEnd
    rw [if_pos hlt]
    simp only [hnone]

/-- The single transcript line `[00:07] hi` used in the C3 witness. -/
def c3LineW : List Char := ['[','0','0',':','0','7',']',' ','h','i']

/-- Witness for C3 (amended) on a one-line transcript: the last-segment
case of the inference applies. -/
theorem segment_end_inference_witness :
    0 < ([c3LineW].dropWhile isHeaderLine).length ∧
    parseTimestamp (([c3LineW].dropWhile isHeaderLine).getD 0 []) =
      some (0, 7, ['[','0','0',':','0','7',']'], [' ','h','i']) ∧
    inferEnd ([c3LineW].dropWhile isHeaderLine) 0 (60 * 0 + 7) (trim [' ','h','i']) =
      min ((60 * 0 + 7 : ℚ) + ((pysplit (trim [' ','h','i'])).length : ℚ) / (5 / 2))
          ((60 * 0 + 7 : ℚ) + 10) := by
  refine ⟨by decide, by decide, ?_⟩
  exact (segment_end_inference [c3LineW] 0 0 7 ['[','0','0',':','0','7',']'] [' ','h','i']
    (by decide) (by decide)).2.1 (by decide)

/-! ## C1 — Coverage Matcher decision -/

/-- Reassociation of a four-way disjunction. -/
theorem or_assoc4 {a b c d : Prop} : (((a ∨ b) ∨ c) ∨ d) ↔ (a ∨ b ∨ c ∨ d) := by
  tauto

/-- C1: for a base segment of trimmed lower-cased length ≥ 10, the
Coverage Matcher leaves it unreported (covered) exactly when one of the
four heuristics holds — literal substring containment in one accurate
segment, 70% of the >3-character words contained in one accurate
segment, 80% word-set overlap of the >2-character word sets with one
accurate segment, or a contiguous 3-word phrase occurring in the
space-joined concatenation of all accurate texts; shorter base segments
are never reported; and the reported gaps are exactly the
`MissingSegment`s built from reported indices. -/
theorem coverage_matcher_decision (base_segments large_segments : List Segment)
    (bs : Segment) (i : Nat) (hget : base_segments.get? i = some bs) :
    (10 ≤ (trim (lower bs.text)).length →
      (reportedAt base_segments large_segments i = false ↔
        ((∃ ls ∈ large_segments, trim (lower bs.text) <:+: lower ls.text) ∨
         (∃ ls ∈ large_segments, longWords (trim (lower bs.text)) ≠ [] ∧
           (7 : ℚ) / 10 ≤ (((longWords (trim (lower bs.text))).countP
               (fun w => decide (w <:+: lower ls.text))) : ℚ) /
             (longWords (trim (lower bs.text))).length) ∨
         (∃ ls ∈ large_segments,
           (((pysplit (trim (lower bs.text))).filter (fun w => 2 < w.length)).toFinset).Nonempty ∧
           (8 : ℚ) / 10 ≤
             (((((pysplit (trim (lower bs.text))).filter (fun w => 2 < w.length)).toFinset ∩
                ((pysplit (lower ls.text)).filter (fun w => 2 < w.length)).toFinset).card : ℚ)) /
               (((pysplit (trim (lower bs.text))).filter (fun w => 2 < w.length)).toFinset).card) ∨
         (∃ j, j + 3 ≤ (pysplit (trim (lower bs.text))).length ∧
           joinSpace (((pysplit (trim (lower bs.text))).drop j).take 3) <:+:
             combinedText large_segments))))
    ∧ ((trim (lower bs.text)).length < 10 →
        reportedAt base_segments large_segments i = false)
    ∧ (∀ m, m ∈ collectMissing base_segments large_segments ↔
        ∃ j bj, base_segments.get? j = some bj ∧
          reportedAt base_segments large_segments j = true ∧
          m = mkMissingAt base_segments j bj) := by
  have hget' : base_segments[i]? = some bs := by
    rw [← List.get?_eq_getElem?]
    exact hget
  refine ⟨?_, ?_, ?_⟩
  · intro hlen
    have hrep : reportedAt base_segments large_segments i =
        (decide (10 ≤ (trim (lower bs.text)).length) &&
          ! base_covered (trim (lower bs.text)) large_segments (combinedText large_segments)) := by
      simp [reportedAt, hget, hget']
    rw [hrep, decide_eq_true hlen, Bool.true_and]
    rw [show ∀ b : Bool, ((! b) = false ↔ b = true) from by decide]
    unfold base_covered
    simp only [Bool.or_eq_true, List.any_eq_true, Bool.and_eq_true,
      decide_eq_true_eq, containsSub]
    have hb1 : (∃ ls ∈ large_segments, trim (lower bs.text) <:+: lower ls.text ∨
          (0 < (longWords (trim (lower bs.text))).length ∧
           (7 : ℚ) / 10 ≤ (((longWords (trim (lower bs.text))).countP
               (fun w => decide (w <:+: lower ls.text))) : ℚ) /
             (longWords (trim (lower bs.text))).length)) ↔
        ((∃ ls ∈ large_segments, trim (lower bs.text) <:+: lower ls.text) ∨
         (∃ ls ∈ large_segments, longWords (trim (lower bs.text)) ≠ [] ∧
           (7 : ℚ) / 10 ≤ (((longWords (trim (lower bs.text))).countP
               (fun w => decide (w <:+: lower ls.text))) : ℚ) /
             (longWords (trim (lower bs.text))).length)) := by
      constructor
      · rintro ⟨ls, hls, h | ⟨hpos, hc⟩⟩
        · exact Or.inl ⟨ls, hls, h⟩
        · exact Or.inr ⟨ls, hls, List.length_pos.mp hpos, hc⟩
      · rintro (⟨ls, hls, h⟩ | ⟨ls, hls, hne, hc⟩)
        · exact ⟨ls, hls, Or.inl h⟩
        · exact ⟨ls, hls, Or.inr ⟨List.length_pos.mpr hne, hc⟩⟩
    have hb2 : (0 < (((pysplit (trim (lower bs.text))).filter (fun w => 2 < w.length)).toFinset).card ∧
          ∃ ls ∈ large_segments,
            (8 : ℚ) / 10 ≤
              (((((pysplit (trim (lower bs.text))).filter (fun w => 2 < w.length)).toFinset ∩
                 ((pysplit (lower ls.text)).filter (fun w => 2 < w.length)).toFinset).card : ℚ)) /
                (((pysplit (trim (lower bs.text))).filter (fun w => 2 < w.length)).toFinset).card) ↔
        (∃ ls ∈ large_segments,
          (((pysplit (trim (lower bs.text))).filter (fun w => 2 < w.length)).toFinset).Nonempty ∧
          (8 : ℚ) / 10 ≤
            (((((pysplit (trim (lower bs.text))).filter (fun w => 2 < w.length)).toFinset ∩
               ((pysplit (lower ls.text)).filter (fun w => 2 < w.length)).toFinset).card : ℚ)) /
              (((pysplit (trim (lower bs.text))).filter (fun w => 2 < w.length)).toFinset).card) := by
      constructor
      · rintro ⟨hpos, ls, hls, hq⟩
        exact ⟨ls, hls, Finset.card_pos.mp hpos, hq⟩
      · rintro ⟨ls, hls, hne, hq⟩
        exact ⟨Finset.card_pos.mpr hne, ls, hls, hq⟩
    have hb3 : (3 ≤ (pysplit (trim (lower bs.text))).length ∧
          ∃ j ∈ List.range ((pysplit (trim (lower bs.text))).length - 2),
            joinSpace (((pysplit (trim (lower bs.text))).drop j).take 3) <:+:
              combinedText large_segments) ↔
        (∃ j, j + 3 ≤ (pysplit (trim (lower bs.text))).length ∧
          joinSpace (((pysplit (trim (lower bs.text))).drop j).take 3) <:+:
            combinedText large_segments) := by
      constructor
      · rintro ⟨h3, j, hj, hr⟩
        rw [List.mem_range] at hj
        exact ⟨j, by omega, hr⟩
      · rintro ⟨j, hj, hr⟩
        exact ⟨by omega, j, List.mem_range.mpr (by omega), hr⟩
    rw [hb1, hb2, hb3]
    exact or_assoc4
  · intro hlen
    have hnot : ¬ (10 ≤ (trim (lower bs.text)).length) := not_le.mpr hlen
    simp [reportedAt, hget, hget', hnot]
  · intro m
    constructor
    · intro hm
      unfold collectMissing at hm
      rw [List.mem_filterMap] at hm
      obtain ⟨j, hjr, hjf⟩ := hm
      match hg2 : base_segments.get? j with
      | none =>
        simp only [hg2] at hjf
        exact absurd hjf (by simp)
      | some bj =>
        simp only [hg2] at hjf
        by_cases hrep : reportedAt base_segments large_segments j = true
        · refine ⟨j, bj, hg2, hrep, ?_⟩
          rw [if_pos hrep] at hjf
          exact (Option.some_inj.mp hjf).symm
        · rw [if_neg hrep] at hjf
          exact absurd hjf (by simp)
    · rintro ⟨j, bj, hg2, hrep, rfl⟩
      have hg2' : base_segments[j]? = some bj := by
        rw [← List.get?_eq_getElem?]
        exact hg2
      unfold collectMissing
      rw [List.mem_filterMap]
      refine ⟨j, ?_, ?_⟩
      · rw [List.mem_range]
        obtain ⟨h, _⟩ := List.get?_eq_some.mp hg2
        exact h
      · simp [hg2, hg2', hrep]

/-- Segment with text `hello world` used in the C1 witness. -/
def c1Seg : Segment :=
  { start_seconds := 0, end_seconds := 5,
    text := ['h','e','l','l','o',' ','w','o','r','l','d'], timestamp_str := [] }

/-- Witness for C1: a base segment whose text appears verbatim in the
accurate pass satisfies heuristic 1 and is not reported. -/
theorem coverage_matcher_decision_witness :
    ([c1Seg].get? 0 = some c1Seg) ∧
    10 ≤ (trim (lower c1Seg.text)).length ∧
    reportedAt [c1Seg] [c1Seg] 0 = false := by
  refine ⟨rfl, by decide, ?_⟩
  exact ((coverage_matcher_decision [c1Seg] [c1Seg] c1Seg 0 rfl).1 (by decide)).mpr
    (Or.inl ⟨c1Seg, List.mem_singleton.mpr rfl, by decide⟩)
